import Mathlib

/-!
Shallow embedding of the two cores of this repository — the explicit-free-list
heap allocator (malloc_implementation.c) and the concurrent proxy response
cache (proxy.c / cache.h) — together with theorems settling the specified
properties of both.

Modelling conventions:
* C strings and byte buffers are lists of naturals (one naturals per byte).
* C `int` / `time_t` quantities that are subtracted or compared with sign are
  Lean `Int`; sizes that the code treats as unsigned are `Nat` with explicit
  wrap-around where the C arithmetic can wrap.
* The cache is a sentinel-headed doubly linked list in the source; the model
  keeps the sentinel node separately from the list of live entries (in list
  order, front = most recently inserted), and identifies an entry (a C
  pointer) by its position in that list.
* The proxy is multi-threaded; the model is the sequential semantics of each
  cache operation (the P/V mutex calls of the source guard but do not change
  the data transformation and are elided).
* The allocator heap is word-addressed memory: an association list from byte
  addresses to 32-bit word values for the header/footer words accessed through
  GET/PUT, and a second association list for the 8-byte free-list pointer
  slots accessed through GET_NEXT_FREE/GET_PREV_FREE (in well-formed heaps
  the two classes of locations never overlap).  The sbrk arena starts at
  address 0 and never fails.  NULL is address 0.
-/

/-- Pair every element of a list with its position, starting at n. -/
def enumF {α : Type} (n : Nat) : List α → List (Nat × α)
  | [] => []
  | a :: l => (n, a) :: enumF (n + 1) l

namespace ProxyCache

/-- MAX_CACHE_SIZE from cache.h. -/
def MAX_CACHE_SIZE : Int := 1049000

/-- MAX_OBJECT_SIZE from cache.h. -/
def MAX_OBJECT_SIZE : Int := 102400

/-- MAXLINE from csapp.h: the size of the buffer handed to Rio_readn, hence
the largest chunk a single read can return. -/
def MAXLINE : Int := 8192

/-- A cache entry (struct Cache) without its next/prev links: the links are
represented by the position of the entry in the model's entry list. -/
structure CEntry where
  url : List Nat
  response : List Nat
  last_access : Int
  response_size : Int
  deriving DecidableEq, Repr

/-- init_cache: the sentinel entry with all fields zero/null. -/
def init_cache : CEntry :=
  { url := [], response := [], last_access := 0, response_size := 0 }

/-- The entry a valid index denotes (C pointer dereference). -/
def entryAt (l : List CEntry) (i : Nat) : CEntry := l.getD i init_cache

/-- Sum of response_size over the live entries. -/
def sumSizes (l : List CEntry) : Int := (l.map (fun e => e.response_size)).sum

/-- The scanning loop of search_cache (proxy.c cache part, lines 447-468):
walk the entries after the sentinel; on a url match set that entry's
last_access to now and stop, otherwise set the scanned entry's last_access to
now and continue.  Returns the updated entries and the index of the hit. -/
def search_cache_go (now : Int) (curl : List Nat) : List CEntry → List CEntry × Option Nat
  | [] => ([], none)
  | e :: rest =>
    if e.url = curl then
      ({ e with last_access := now } :: rest, some 0)
    else
      let r := search_cache_go now curl rest
      ({ e with last_access := now } :: r.1, r.2.map (fun i => i + 1))

/-- Observable effect of one search_cache call: the entries after the call,
the hit (index of the matched entry, none on miss), and the number of
Malloc/Free calls for Cache structs the function performed.  The source
Mallocs one Cache struct on entry (line 432) and immediately overwrites the
pointer with NULL, and never frees it; the mutex operations are elided. -/
structure SearchEffect where
  entries : List CEntry
  hit : Option Nat
  mallocs : Nat
  frees : Nat
  deriving DecidableEq, Repr

/-- search_cache (proxy.c, lines 430-478). -/
def search_cache (now : Int) (entries : List CEntry) (curl : List Nat) : SearchEffect :=
  let r := search_cache_go now curl entries
  { entries := r.1, hit := r.2, mallocs := 1, frees := 0 }

/-- The loop body state of find_LRU: t, temp (as an optional index, none for
the sentinel) and temp's last_access field. -/
def find_LRU_go (t : Int) (tempIdx : Option Nat) (tempLa : Int) :
    List (Nat × CEntry) → Option Nat
  | [] => tempIdx
  | (i, e) :: rest =>
    if tempLa < t then find_LRU_go e.last_access (some i) e.last_access rest
    else find_LRU_go t tempIdx tempLa rest

/-- find_LRU (proxy.c, lines 538-553): t starts at time(NULL), temp starts at
the sentinel, and the loop compares temp's last_access with t (exactly as the
source does).  Returns none when temp is still the sentinel at the end. -/
def find_LRU (now : Int) (sent : CEntry) (entries : List CEntry) : Option Nat :=
  find_LRU_go now none sent.last_access (enumF 0 entries)

/-- The cache state: the sentinel node, the live entries in list order, and
the remaining_cache_size counter. -/
structure CacheSt where
  sent : CEntry
  entries : List CEntry
  remaining : Int
  deriving DecidableEq, Repr

/-- The eviction loop of write_to_cache (lines 510-519): while the LRU
candidate's response_size plus the remaining space is below the object size,
release the candidate, delete it, and recompute the LRU.  Returns the entries,
the remaining counter and the final LRU candidate at loop exit; none models
the crash of delete_cache_entry dereferencing the sentinel's null prev link.
fuel is a model artifact bounding the recursion; one entry is removed per
iteration, so fuel = (number of entries) never runs out. -/
def evict_loop (sent : CEntry) (now obj_size : Int) :
    Nat → List CEntry → Int → Option (List CEntry × Int × Option Nat)
  | 0, entries, rem =>
    let idx := find_LRU now sent entries
    let sz := match idx with
      | some i => (entryAt entries i).response_size
      | none => sent.response_size
    if sz + rem < obj_size then none else some (entries, rem, idx)
  | f + 1, entries, rem =>
    let idx := find_LRU now sent entries
    let sz := match idx with
      | some i => (entryAt entries i).response_size
      | none => sent.response_size
    if sz + rem < obj_size then
      match idx with
      | none => none
      | some i => evict_loop sent now obj_size f (entries.eraseIdx i) (rem + sz)
    else some (entries, rem, idx)

/-- write_to_cache (proxy.c, lines 485-533).  new_url receives strcpy(c_url);
new_response receives memcpy(response, obj_size).  If space remains, a new
entry is pushed at the list front (add_cache_entry attaches it right after the
sentinel); otherwise the eviction loop runs and the final LRU victim is
overwritten in place, adjusting remaining by (victim.response_size -
obj_size) before the overwrite, exactly as the source does. -/
def write_to_cache (now : Int) (st : CacheSt) (c_url : List Nat)
    (obj_size : Int) (resp : List Nat) : Option CacheSt :=
  let new_url := c_url
  let new_response := resp.take obj_size.toNat
  if obj_size ≤ st.remaining then
    let new_block : CEntry :=
      { url := new_url, response := new_response,
        last_access := now, response_size := obj_size }
    some { st with entries := new_block :: st.entries,
                   remaining := st.remaining - obj_size }
  else
    match evict_loop st.sent now obj_size st.entries.length st.entries st.remaining with
    | none => none
    | some (es, rem2, idx) =>
      match idx with
      | some i =>
        let victim := entryAt es i
        let newe : CEntry :=
          { url := new_url, response := new_response,
            last_access := now, response_size := obj_size }
        some { st with entries := es.set i newe,
                       remaining := rem2 + (victim.response_size - obj_size) }
      | none =>
        some { sent := { url := new_url, response := new_response,
                         last_access := now, response_size := obj_size },
               entries := es,
               remaining := rem2 + (st.sent.response_size - obj_size) }

/-- The response streaming loop of handle_request (proxy.c, lines 302-315):
for each chunk of n bytes read from the server, copy it into the response
buffer only if response_buf_left - n > 0 (then sum += n), and decrement
response_buf_left by n unconditionally.  Returns (response_buf_left, sum). -/
def streamLoop : List Int → Int → Int → Int × Int
  | [], buf_left, sum => (buf_left, sum)
  | n :: rest, buf_left, sum =>
    if 0 < buf_left - n then streamLoop rest (buf_left - n) (sum + n)
    else streamLoop rest (buf_left - n) sum

/-- The caching decision after streaming (lines 317-320): insert the
accumulated buffer into the cache (with length sum) iff response_buf_left ≥ 0.
Returns the response_size of the inserted entry, none when nothing is
cached. -/
def handle_response (chunks : List Int) : Option Int :=
  let r := streamLoop chunks MAX_OBJECT_SIZE 0
  if 0 ≤ r.1 then some r.2 else none

/-- A two-entry cache whose second (later) entry has the smaller last_access:
last_access values 10 and 5 in list order. -/
def lruEntries : List CEntry :=
  [{ url := [97], response := [], last_access := 10, response_size := 0 },
   { url := [98], response := [], last_access := 5, response_size := 0 }]

/-- A two-entry cache used as a lookup input: urls [97] and [98] with
last_access 1 and 2. -/
def searchEntries : List CEntry :=
  [{ url := [97], response := [], last_access := 1, response_size := 0 },
   { url := [98], response := [], last_access := 2, response_size := 0 }]

/-- A response of exactly MAX_OBJECT_SIZE = 102400 bytes delivered as twelve
full 8192-byte reads followed by one 4096-byte read. -/
def c9chunks : List Int := List.replicate 12 8192 ++ [4096]

/-- A full cache state: entries of sizes 1000 and 1047000 with 1000 bytes
remaining (accounting invariant holds). -/
def wtcSt : CacheSt :=
  { sent := init_cache,
    entries := [{ url := [97], response := [], last_access := 10, response_size := 1000 },
                { url := [98], response := [], last_access := 20, response_size := 1047000 }],
    remaining := 1000 }

end ProxyCache

namespace MallocImpl

/-- WSIZE: word and header/footer size (bytes). -/
def WSIZE : Nat := 4

/-- DSIZE: doubleword size (bytes). -/
def DSIZE : Nat := 8

/-- CHUNKSIZE: default heap extension (bytes). -/
def CHUNKSIZE : Nat := 2048

/-- MIN_SIZE: minimum block size (bytes). -/
def MIN_SIZE : Nat := 24

/-- ALIGN: block alignment. -/
def ALIGN : Nat := 8

/-- FITS: bound on qualifying candidates inspected by find_fit. -/
def FITS : Nat := 8

/-- FURTHESTDOWN: bound on extra free blocks inspected by find_fit. -/
def FURTHESTDOWN : Nat := 200

/-- ALLOCED allocation bit. -/
def ALLOCED : Nat := 1

/-- FREE allocation bit. -/
def FREE : Nat := 0

/-- The adjusted block size computed by mm_malloc (lines 141-145):
asize = 3*DSIZE when size ≤ 2*DSIZE, else (2*DSIZE)*((size + 2*DSIZE +
(2*DSIZE-1)) / (2*DSIZE)). -/
def asize_of (size : Nat) : Nat :=
  if size ≤ 2 * DSIZE then 3 * DSIZE
  else (2 * DSIZE) * ((size + 2 * DSIZE + (2 * DSIZE - 1)) / (2 * DSIZE))

/-- Round n up to the next multiple of m (m > 0): the spec's round_up. -/
def roundUp (n m : Nat) : Nat := m * ((n + m - 1) / m)

/-- The number of bytes mm_realloc copies (lines 350-353): oldsize starts as
GET_SIZE(HDRP(ptr)) — the old block size, header and footer included — and is
lowered to size when size < oldsize; memcpy then moves oldsize bytes. -/
def mm_realloc_copy_len (old_block_size size : Nat) : Nat :=
  if size < old_block_size then size else old_block_size

/-- Observable effect of one mm_realloc call (lines 323-359): the bytes
memcpy moved into the new block, the pointer passed to mm_free afterwards,
and the returned pointer.  block_bytes are the bytes readable starting at ptr
(payload, then footer, then the following block); old_block_size is
GET_SIZE(HDRP(ptr)); newptr is the result of the inner mm_malloc (0 when it
failed). -/
structure ReallocEffect where
  copied : List Nat
  freed : Option Nat
  returned : Option Nat
  deriving DecidableEq, Repr

/-- mm_realloc (lines 323-359) as its observable effect. -/
def mm_realloc_effect (ptr : Nat) (old_block_size : Nat) (block_bytes : List Nat)
    (size : Nat) (newptr : Nat) : ReallocEffect :=
  if size = 0 then { copied := [], freed := some ptr, returned := none }
  else if ptr = 0 then { copied := [], freed := none, returned := some newptr }
  else if newptr = 0 then { copied := [], freed := none, returned := none }
  else
    { copied := block_bytes.take (mm_realloc_copy_len old_block_size size),
      freed := some ptr, returned := some newptr }

/-- The find_fit loop (lines 518-551) over the free list abstracted to the
list of its block sizes in list order; pos is the position of the current
block in the free list (the identity of the C block pointer), count the
number of qualifying candidates seen, scount the number of blocks inspected
since the first candidate, sc the start_counting flag and bp the current best
candidate as (position, size).  The loop guard count < FITS ∧ scount <
FURTHESTDOWN is checked before each iteration; scount increments at the top
of the body once sc is set; on a qualifying block, count increments, the
count = 1 case records the block and sets sc, and the blocksize < best test
replaces the best candidate (the bp = none branch of that test mirrors the C
comparison against the uninitialized best, unreachable because count ≥ 2
implies a candidate was recorded). -/
def find_fit_go (asize : Nat) :
    List Nat → Nat → Nat → Nat → Bool → Option (Nat × Nat) → Option (Nat × Nat)
  | [], _, _, _, _, bp => bp
  | b :: rest, pos, count, scount, sc, bp =>
    if count < FITS ∧ scount < FURTHESTDOWN then
      let scount2 := if sc then scount + 1 else scount
      if asize ≤ b then
        let count2 := count + 1
        let bp2 := if count2 = 1 then some (pos, b) else bp
        let sc2 := if count2 = 1 then true else sc
        let bp3 := match bp2 with
          | some pr => if b < pr.2 then some (pos, b) else some pr
          | none => none
        find_fit_go asize rest (pos + 1) count2 scount2 sc2 bp3
      else
        find_fit_go asize rest (pos + 1) count scount2 sc bp
    else bp

/-- find_fit on a free list given as its list of block sizes: returns the
chosen block as (position, size), or none. -/
def find_fit (asize : Nat) (freelist : List Nat) : Option (Nat × Nat) :=
  find_fit_go asize freelist 0 0 0 false none

/-- Positions (relative to the head of the list) of the blocks whose size
qualifies (size ≥ asize). -/
def qualPositions (asize : Nat) : List Nat → List Nat
  | [] => []
  | b :: t =>
    if asize ≤ b then 0 :: (qualPositions asize t).map (fun i => i + 1)
    else (qualPositions asize t).map (fun i => i + 1)

/-- Modelled from the spec's placement-policy wording: the number of blocks
of the free list the bounded-lookahead scan examines — everything up to the
first qualifying block plus at most FURTHESTDOWN more, cut off after the
FITS-th qualifying candidate, whichever comes first. -/
def specStop (asize : Nat) (l : List Nat) : Nat :=
  match qualPositions asize l with
  | [] => l.length
  | i0 :: _ =>
    min (i0 + 1 + FURTHESTDOWN)
      (match (qualPositions asize l).get? (FITS - 1) with
       | some ik => ik + 1
       | none => l.length)

/-- Fold selecting the candidate of smallest size, ties broken in favour of
the earliest candidate. -/
def pickBest : Option (Nat × Nat) → List (Nat × Nat) → Option (Nat × Nat)
  | acc, [] => acc
  | acc, (i, s) :: rest =>
    pickBest (match acc with
      | none => some (i, s)
      | some pr => if s < pr.2 then some (i, s) else some pr) rest

/-- Modelled from the spec's placement-policy wording (§4.1.2): among the
examined prefix of the free list, the qualifying candidate of smallest size,
ties broken by first encountered; none when no qualifying block was
examined. -/
def find_fit_spec (asize : Nat) (l : List Nat) : Option (Nat × Nat) :=
  pickBest none (((enumF 0 l).take (specStop asize l)).filter (fun p => asize ≤ p.2))

/-- Generalisation of specStop for the part of the list after the first
candidate: the number of blocks examined when cb qualifying candidates and lb
inspected blocks remain in budget. -/
def stopB (asize : Nat) (l : List Nat) (cb lb : Nat) : Nat :=
  min lb
    (if cb = 0 then 0
     else match (qualPositions asize l).get? (cb - 1) with
       | some ik => ik + 1
       | none => l.length)

/-- 2^32: GET/PUT act on 32-bit words. -/
def UINT_MOD : Nat := 4294967296

/-- Association list backing a memory map; absent addresses read as 0. -/
abbrev AList := List (Nat × Nat)

/-- Read a memory cell (absent cells read 0, matching an untouched arena). -/
def aget (m : AList) (a : Nat) : Nat := (m.lookup a).getD 0

/-- Write a memory cell. -/
def aput (m : AList) (a v : Nat) : AList := (a, v) :: m

/-- The allocator state: the 32-bit header/footer words (byte-addressed), the
8-byte free-list pointer slots (byte-addressed), the sbrk break, heap_listp
and free_list_root.  heap_listp = 0 encodes the uninitialized heap; NULL
pointers are 0. -/
structure MMState where
  words : AList
  ptrs : AList
  brk : Nat
  heap_listp : Nat
  free_list_root : Nat
  deriving DecidableEq, Repr

/-- GET(p): read the 32-bit word at byte address p. -/
def GET (st : MMState) (p : Nat) : Nat := aget st.words p

/-- PUT(p, val): write the 32-bit word at byte address p. -/
def PUT (st : MMState) (p v : Nat) : MMState :=
  { st with words := aput st.words p (v % UINT_MOD) }

/-- PACK(size, alloc). -/
def PACK (size alloc : Nat) : Nat := size ||| alloc

/-- GET_SIZE(p) = GET(p) & ~0x7 (~0x7 on a 32-bit unsigned is 0xFFFFFFF8). -/
def GET_SIZE (st : MMState) (p : Nat) : Nat := GET st p &&& 4294967288

/-- GET_ALLOC(p) = GET(p) & 0x1. -/
def GET_ALLOC (st : MMState) (p : Nat) : Nat := GET st p &&& 1

/-- HDRP(bp). -/
def HDRP (bp : Nat) : Nat := bp - WSIZE

/-- FTRP(bp): reads the size from the block's current header. -/
def FTRP (st : MMState) (bp : Nat) : Nat := bp + GET_SIZE st (HDRP bp) - DSIZE

/-- NEXT_BLKP(bp). -/
def NEXT_BLKP (st : MMState) (bp : Nat) : Nat := bp + GET_SIZE st (bp - WSIZE)

/-- PREV_BLKP(bp). -/
def PREV_BLKP (st : MMState) (bp : Nat) : Nat := bp - GET_SIZE st (bp - DSIZE)

/-- GET_NEXT_FREE(bp): the pointer stored in the first 8 payload bytes. -/
def GET_NEXT_FREE (st : MMState) (bp : Nat) : Nat := aget st.ptrs bp

/-- GET_PREV_FREE(bp): the pointer stored in the next 8 payload bytes. -/
def GET_PREV_FREE (st : MMState) (bp : Nat) : Nat := aget st.ptrs (bp + DSIZE)

/-- PUT_NEXT_FREE(bp, val). -/
def PUT_NEXT_FREE (st : MMState) (bp v : Nat) : MMState :=
  { st with ptrs := aput st.ptrs bp v }

/-- PUT_PREV_FREE(bp, val). -/
def PUT_PREV_FREE (st : MMState) (bp v : Nat) : MMState :=
  { st with ptrs := aput st.ptrs (bp + DSIZE) v }

/-- mem_sbrk(incr): bump the break and return the old break.  The model's
arena never fails (the mem_sbrk = (void*)-1 branches of the source are the
out-of-memory paths and are not taken). -/
def mem_sbrk (st : MMState) (incr : Nat) : MMState × Nat :=
  ({ st with brk := st.brk + incr }, st.brk)

/-- mem_heap_lo(): the model's arena starts at address 0. -/
def mem_heap_lo (_st : MMState) : Nat := 0

/-- mem_heap_hi(): address of the last heap byte. -/
def mem_heap_hi (st : MMState) : Nat := st.brk - 1

/-- add_to_freelist (lines 168-191): push bp at the front of the free list. -/
def add_to_freelist (st : MMState) (bp : Nat) : MMState :=
  if st.free_list_root = 0 then
    let st := { st with free_list_root := bp }
    let st := PUT_PREV_FREE st bp 0
    PUT_NEXT_FREE st bp 0
  else
    let st := PUT_NEXT_FREE st bp st.free_list_root
    let st := PUT_PREV_FREE st bp 0
    let st := PUT_PREV_FREE st st.free_list_root bp
    { st with free_list_root := bp }

/-- remove_from_freelist (lines 201-233): the four unlink cases (sole member,
head, tail, interior). -/
def remove_from_freelist (st : MMState) (bp : Nat) : MMState :=
  if GET_PREV_FREE st bp = 0 ∧ GET_NEXT_FREE st bp = 0 then
    { st with free_list_root := 0 }
  else if GET_PREV_FREE st bp = 0 then
    let st := { st with free_list_root := GET_NEXT_FREE st bp }
    PUT_PREV_FREE st st.free_list_root 0
  else if GET_NEXT_FREE st bp = 0 then
    PUT_NEXT_FREE st (GET_PREV_FREE st bp) 0
  else
    let st := PUT_NEXT_FREE st (GET_PREV_FREE st bp) (GET_NEXT_FREE st bp)
    let st := PUT_PREV_FREE st (GET_NEXT_FREE st bp) (GET_PREV_FREE st bp)
    let st := PUT_PREV_FREE st bp 0
    PUT_NEXT_FREE st bp 0

/-- coalesce (lines 261-318): the four boundary-tag merge cases; every macro
argument is evaluated against the state current at that statement, as in C.
Returns the state and the returned block pointer. -/
def coalesce (st : MMState) (bp : Nat) : MMState × Nat :=
  let prev_block_alloc := GET_ALLOC st (FTRP st (PREV_BLKP st bp))
  let next_block_alloc := GET_ALLOC st (HDRP (NEXT_BLKP st bp))
  let size := GET_SIZE st (HDRP bp)
  if prev_block_alloc ≠ 0 ∧ next_block_alloc ≠ 0 then
    (add_to_freelist st bp, bp)
  else if prev_block_alloc = 0 ∧ next_block_alloc ≠ 0 then
    let st := remove_from_freelist st (PREV_BLKP st bp)
    let s2 := size + GET_SIZE st (HDRP (PREV_BLKP st bp))
    let st := PUT st (HDRP (PREV_BLKP st bp)) (PACK s2 FREE)
    let st := PUT st (FTRP st bp) (PACK s2 FREE)
    (add_to_freelist st (PREV_BLKP st bp), PREV_BLKP st bp)
  else if prev_block_alloc ≠ 0 ∧ next_block_alloc = 0 then
    let st := remove_from_freelist st (NEXT_BLKP st bp)
    let s2 := size + GET_SIZE st (HDRP (NEXT_BLKP st bp))
    let st := PUT st (FTRP st (NEXT_BLKP st bp)) (PACK s2 FREE)
    let st := PUT st (HDRP bp) (PACK s2 FREE)
    (add_to_freelist st bp, bp)
  else
    let st := remove_from_freelist st (NEXT_BLKP st bp)
    let st := remove_from_freelist st (PREV_BLKP st bp)
    let s2 := size + GET_SIZE st (HDRP (PREV_BLKP st bp))
                   + GET_SIZE st (HDRP (NEXT_BLKP st bp))
    let st := PUT st (HDRP (PREV_BLKP st bp)) (PACK s2 FREE)
    let st := PUT st (FTRP st (NEXT_BLKP st bp)) (PACK s2 FREE)
    (add_to_freelist st (PREV_BLKP st bp), PREV_BLKP st bp)

/-- extend_heap (lines 459-478). -/
def extend_heap (st : MMState) (words : Nat) : MMState × Nat :=
  let size := if words % 2 = 1 then (words + 1) * WSIZE else words * WSIZE
  let r := mem_sbrk st size
  let bp := r.2
  let st := PUT r.1 (HDRP bp) (PACK size 0)
  let st := PUT st (FTRP st bp) (PACK size 0)
  let st := PUT st (HDRP (NEXT_BLKP st bp)) (PACK 0 1)
  coalesce st bp

/-- mm_init (lines 102-118): pad word, prologue header/footer, epilogue
header, then extend the heap by CHUNKSIZE bytes. -/
def mm_init (st : MMState) : MMState × Int :=
  let r := mem_sbrk st (4 * WSIZE)
  let st := { r.1 with heap_listp := r.2 }
  let st := PUT st st.heap_listp 0
  let st := PUT st (st.heap_listp + 1 * WSIZE) (PACK DSIZE 1)
  let st := PUT st (st.heap_listp + 2 * WSIZE) (PACK DSIZE 1)
  let st := PUT st (st.heap_listp + 3 * WSIZE) (PACK 0 1)
  let st := { st with heap_listp := st.heap_listp + 2 * WSIZE }
  let st := { st with free_list_root := 0 }
  ((extend_heap st (CHUNKSIZE / WSIZE)).1, 0)

/-- The tail of mm_free after the size read and the lazy-init check (lines
246-249): mark header and footer free (the footer address is computed from
the just-written header, as the FTRP macro does) and coalesce. -/
def mm_free_core (st : MMState) (bp size : Nat) : MMState :=
  let st := PUT st (HDRP bp) (PACK size 0)
  let st := PUT st (FTRP st bp) (PACK size 0)
  (coalesce st bp).1

/-- mm_free (lines 235-252): note the source reads size =
GET_SIZE(HDRP(bp)) at line 241, before the heap_listp = 0 lazy-init check at
lines 242-244. -/
def mm_free (st : MMState) (bp : Nat) : MMState :=
  if bp = 0 then st
  else
    let size := GET_SIZE st (HDRP bp)
    let st := if st.heap_listp = 0 then (mm_init st).1 else st
    mm_free_core st bp size

/-- The find_fit loop (lines 518-551) read directly off the heap state,
following GET_NEXT_FREE links; fuel is a model artifact bounding the walk
(the C loop would not terminate on a cyclic list either); same loop state as
find_fit_go. -/
def find_fit_mem_go (st : MMState) (asize : Nat) :
    Nat → Nat → Nat → Nat → Bool → Option (Nat × Nat) → Option (Nat × Nat)
  | 0, _, _, _, _, bp => bp
  | fuel + 1, block, count, scount, sc, bp =>
    if block = 0 then bp
    else if count < FITS ∧ scount < FURTHESTDOWN then
      let blocksize := GET_SIZE st (HDRP block)
      let scount2 := if sc then scount + 1 else scount
      if asize ≤ blocksize then
        let count2 := count + 1
        let bp2 := if count2 = 1 then some (block, blocksize) else bp
        let sc2 := if count2 = 1 then true else sc
        let bp3 := match bp2 with
          | some pr => if blocksize < pr.2 then some (block, blocksize) else some pr
          | none => none
        find_fit_mem_go st asize fuel (GET_NEXT_FREE st block) count2 scount2 sc2 bp3
      else
        find_fit_mem_go st asize fuel (GET_NEXT_FREE st block) count scount2 sc bp
    else bp

/-- find_fit on the heap state. -/
def find_fit_mem (st : MMState) (fuel asize : Nat) : Option Nat :=
  (find_fit_mem_go st asize fuel st.free_list_root 0 0 false none).map Prod.fst

/-- place (lines 486-508).  The split test of the source is (csize - asize)
>= MIN_SIZE in size_t arithmetic, which wraps below zero; the model keeps the
32-bit wrap-around explicitly. -/
def place (st : MMState) (bp asize : Nat) : MMState :=
  let csize := GET_SIZE st (HDRP bp)
  if MIN_SIZE ≤ (csize + UINT_MOD - asize) % UINT_MOD then
    let st := PUT st (HDRP bp) (PACK asize 1)
    let st := PUT st (FTRP st bp) (PACK asize 1)
    let st := remove_from_freelist st bp
    let bp2 := NEXT_BLKP st bp
    let st := PUT st (HDRP bp2) (PACK (csize - asize) 0)
    let st := PUT st (FTRP st bp2) (PACK (csize - asize) 0)
    add_to_freelist st bp2
  else
    let st := PUT st (HDRP bp) (PACK csize 1)
    let st := PUT st (FTRP st bp) (PACK csize 1)
    remove_from_freelist st bp

/-- The tail of mm_malloc after the lazy-init check (lines 135-157): the
size = 0 early return, the asize computation (asize_of transcribes lines
141-145), find_fit, and on failure extend_heap by max(asize, CHUNKSIZE) then
place.  The model's heap extension never fails, so the NULL return of a
failed extend_heap is not taken.  fuel bounds the find_fit free-list walk. -/
def mm_malloc_core (st : MMState) (fuel size : Nat) : MMState × Option Nat :=
  if size = 0 then (st, none)
  else
    let asize := asize_of size
    match find_fit_mem st fuel asize with
    | some bp => (place st bp asize, some bp)
    | none =>
      let extendsize := max asize CHUNKSIZE
      let r := extend_heap st (extendsize / WSIZE)
      (place r.1 r.2 asize, some r.2)

/-- mm_malloc (lines 123-158): runs mm_init when heap_listp = 0 (lines
132-134), then the rest of the function. -/
def mm_malloc (st : MMState) (fuel size : Nat) : MMState × Option Nat :=
  let st := if st.heap_listp = 0 then (mm_init st).1 else st
  mm_malloc_core st fuel size

/-- The free-list loop of mm_checkheap (lines 384-433), with its seven checks
in source order; i counts the free-list members.  fuel bounds the walk (each
loop-condition evaluation consumes one unit); none means the walk did not
finish within fuel. -/
def checkFreeLoop (st : MMState) : Nat → Nat → Nat → Option (Bool × Nat)
  | 0, _, _ => none
  | f + 1, block, i =>
    if block = 0 then some (true, i)
    else if ¬(mem_heap_lo st < block ∧ block < mem_heap_hi st) then some (false, i)
    else if ¬(GET_SIZE st (HDRP block) % ALIGN = 0) then some (false, i)
    else if GET_NEXT_FREE st block ≠ 0 ∧
            ¬(GET_PREV_FREE st block = 0 ∨
              GET_PREV_FREE st (GET_NEXT_FREE st block) = block) then some (false, i)
    else if NEXT_BLKP st block ≠ 0 ∧
            ¬(GET_ALLOC st (HDRP block) ≠ GET_ALLOC st (HDRP (NEXT_BLKP st block)))
         then some (false, i)
    else if ¬(MIN_SIZE ≤ GET_SIZE st (HDRP block)) then some (false, i)
    else if ¬(GET_SIZE st (HDRP block) = GET_SIZE st (FTRP st block)) then some (false, i)
    else if ¬(GET_ALLOC st (HDRP block) = GET_ALLOC st (FTRP st block)) then some (false, i)
    else checkFreeLoop st f (GET_NEXT_FREE st block) (i + 1)

/-- The heap-walk loop of mm_checkheap (lines 436-445): from heap_listp,
stepping by NEXT_BLKP while block != NULL, checking alignment and counting
free blocks in j.  fuel bounds the walk as in checkFreeLoop. -/
def checkHeapLoop (st : MMState) : Nat → Nat → Nat → Option (Bool × Nat)
  | 0, _, _ => none
  | f + 1, block, j =>
    if block = 0 then some (true, j)
    else if ¬(GET_SIZE st (HDRP block) % 8 = 0) then some (false, j)
    else
      checkHeapLoop st f (NEXT_BLKP st block)
        (if GET_ALLOC st (HDRP block) = FREE then j + 1 else j)

/-- mm_checkheap (lines 378-453): run the free-list loop, then the heap walk,
then compare the two free-block counts; some 1 means all checks passed, some
0 a failed check, none that a loop did not finish within fuel. -/
def mm_checkheap (st : MMState) (fuel : Nat) : Option Int :=
  match checkFreeLoop st fuel st.free_list_root 0 with
  | none => none
  | some (false, _) => some 0
  | some (true, i) =>
    match checkHeapLoop st fuel st.heap_listp 0 with
    | none => none
    | some (false, _) => some 0
    | some (true, j) => if i = j then some 1 else some 0

/-- The empty pre-init state: untouched arena, heap_listp = 0. -/
def st_empty : MMState :=
  { words := [], ptrs := [], brk := 0, heap_listp := 0, free_list_root := 0 }

/-- The heap produced by mm_init from the empty state. -/
def stInit : MMState := (mm_init st_empty).1

/-- A pre-init state (heap_listp = 0) whose arena holds residual values at
addresses 12 and 60, the addresses an mm_free of block pointer 16 reads as
its header and as the following block's header. -/
def st10 : MMState :=
  { words := [(12, 48), (60, 1)], ptrs := [], brk := 0,
    heap_listp := 0, free_list_root := 0 }

end MallocImpl

/-! Helper lemmas about enumF. -/

theorem enumF_ne {α : Type} (l : List α) (n : Nat) (h : l ≠ []) : enumF n l ≠ [] := by
  cases l with
  | nil => exact absurd rfl h
  | cons a t => simp [enumF]

theorem enumF_mem_lt {α : Type} :
    ∀ (l : List α) (n : Nat) (p : Nat × α), p ∈ enumF n l → p.1 < n + l.length := by
  intro l
  induction l with
  | nil => intro n p h; simp [enumF] at h
  | cons a t ih =>
    intro n p h
    simp only [enumF, List.mem_cons] at h
    rcases h with rfl | h
    · simp
    · have := ih (n + 1) p h
      simp only [List.length_cons]
      omega

namespace ProxyCache

/-! Helper lemmas for the cache accounting invariant. -/

theorem sumSizes_cons (e : CEntry) (l : List CEntry) :
    sumSizes (e :: l) = e.response_size + sumSizes l := by
  simp [sumSizes]

theorem entryAt_cons_succ (e : CEntry) (l : List CEntry) (i : Nat) :
    entryAt (e :: l) (i + 1) = entryAt l i := rfl

theorem entryAt_mem : ∀ (l : List CEntry) (i : Nat), i < l.length → entryAt l i ∈ l := by
  intro l
  induction l with
  | nil => intro i h; simp at h
  | cons e t ih =>
    intro i h
    cases i with
    | zero => exact List.mem_cons_self _ _
    | succ j =>
      have hj : j < t.length := by simpa using h
      exact List.mem_cons_of_mem _ (entryAt_cons_succ e t j ▸ ih j hj)

theorem sumSizes_eraseIdx : ∀ (l : List CEntry) (i : Nat), i < l.length →
    sumSizes (l.eraseIdx i) + (entryAt l i).response_size = sumSizes l := by
  intro l
  induction l with
  | nil => intro i h; simp at h
  | cons e t ih =>
    intro i h
    cases i with
    | zero =>
      show sumSizes t + e.response_size = sumSizes (e :: t)
      rw [sumSizes_cons]; omega
    | succ j =>
      have hj : j < t.length := by simpa using h
      show sumSizes (e :: t.eraseIdx j) + (entryAt t j).response_size = sumSizes (e :: t)
      rw [sumSizes_cons, sumSizes_cons]
      have := ih j hj
      omega

theorem sumSizes_set : ∀ (l : List CEntry) (i : Nat) (x : CEntry), i < l.length →
    sumSizes (l.set i x) + (entryAt l i).response_size = sumSizes l + x.response_size := by
  intro l
  induction l with
  | nil => intro i x h; simp at h
  | cons e t ih =>
    intro i x h
    cases i with
    | zero =>
      show sumSizes (x :: t) + e.response_size = sumSizes (e :: t) + x.response_size
      rw [sumSizes_cons, sumSizes_cons]; omega
    | succ j =>
      have hj : j < t.length := by simpa using h
      show sumSizes (e :: t.set j x) + (entryAt t j).response_size
          = sumSizes (e :: t) + x.response_size
      rw [sumSizes_cons, sumSizes_cons]
      have := ih j x hj
      omega

theorem mem_of_mem_eraseIdx : ∀ (l : List CEntry) (i : Nat) (e : CEntry),
    e ∈ l.eraseIdx i → e ∈ l := by
  intro l
  induction l with
  | nil => intro i e h; simp [List.eraseIdx] at h
  | cons a t ih =>
    intro i e h
    cases i with
    | zero => exact List.mem_cons_of_mem _ h
    | succ j =>
      rcases List.mem_cons.mp h with rfl | h2
      · exact List.mem_cons_self _ _
      · exact List.mem_cons_of_mem _ (ih j e h2)

theorem length_eraseIdx_add_one : ∀ (l : List CEntry) (i : Nat), i < l.length →
    (l.eraseIdx i).length + 1 = l.length := by
  intro l
  induction l with
  | nil => intro i h; simp at h
  | cons a t ih =>
    intro i h
    cases i with
    | zero => rfl
    | succ j =>
      have hj : j < t.length := by simpa using h
      show (a :: t.eraseIdx j).length + 1 = (a :: t).length
      simp only [List.length_cons]
      have := ih j hj
      omega

theorem eraseIdx_eq_nil_length : ∀ (l : List CEntry) (i : Nat),
    l.eraseIdx i = [] → l.length ≤ 1 := by
  intro l
  cases l with
  | nil => intro i _; simp
  | cons a t =>
    intro i h
    cases i with
    | zero =>
      have : t = [] := h
      simp [this]
    | succ j => simp [List.eraseIdx] at h

/-! Helper lemmas about find_LRU. -/

theorem find_LRU_go_cases : ∀ (pl : List (Nat × CEntry)) (t la : Int) (acc : Option Nat),
    find_LRU_go t acc la pl = acc ∨ ∃ p ∈ pl, find_LRU_go t acc la pl = some p.1 := by
  intro pl
  induction pl with
  | nil => intro t la acc; left; rfl
  | cons q rest ih =>
    intro t la acc
    obtain ⟨i, e⟩ := q
    by_cases h : la < t
    · rcases ih e.last_access e.last_access (some i) with h1 | ⟨p, hp, h2⟩
      · right; exact ⟨(i, e), List.mem_cons_self _ _, by simp [find_LRU_go, h, h1]⟩
      · right; exact ⟨p, List.mem_cons_of_mem _ hp, by simp [find_LRU_go, h, h2]⟩
    · rcases ih t la acc with h1 | ⟨p, hp, h2⟩
      · left; simp [find_LRU_go, h, h1]
      · right; exact ⟨p, List.mem_cons_of_mem _ hp, by simp [find_LRU_go, h, h2]⟩

theorem find_LRU_go_first : ∀ (pl : List (Nat × CEntry)) (t la : Int), la < t → pl ≠ [] →
    ∃ p ∈ pl, find_LRU_go t none la pl = some p.1 := by
  intro pl t la h hne
  cases pl with
  | nil => exact absurd rfl hne
  | cons q rest =>
    obtain ⟨i, e⟩ := q
    rcases find_LRU_go_cases rest e.last_access e.last_access (some i) with h1 | ⟨p, hp, h2⟩
    · exact ⟨(i, e), List.mem_cons_self _ _, by simp [find_LRU_go, h, h1]⟩
    · exact ⟨p, List.mem_cons_of_mem _ hp, by simp [find_LRU_go, h, h2]⟩

theorem find_LRU_mem (now : Int) (sent : CEntry) (entries : List CEntry)
    (hla : sent.last_access < now) (hne : entries ≠ []) :
    ∃ i, find_LRU now sent entries = some i ∧ i < entries.length := by
  obtain ⟨p, hp, heq⟩ :=
    find_LRU_go_first (enumF 0 entries) now sent.last_access hla (enumF_ne entries 0 hne)
  refine ⟨p.1, heq, ?_⟩
  have := enumF_mem_lt entries 0 p hp
  omega

end ProxyCache

namespace ProxyCache

/-- Outcome of the eviction loop on a well-formed cache: the loop never
deletes the last entry, never reaches the sentinel, and preserves the
accounting sum. -/
theorem evict_loop_ok (sent : CEntry) (now obj : Int)
    (hla : sent.last_access < now) (hobj : obj ≤ MAX_CACHE_SIZE) :
    ∀ (fuel : Nat) (entries : List CEntry) (rem : Int), entries ≠ [] →
      entries.length ≤ fuel + 1 →
      (∀ e ∈ entries, 0 ≤ e.response_size) →
      sumSizes entries + rem = MAX_CACHE_SIZE →
      ∃ es rem2 i, evict_loop sent now obj fuel entries rem = some (es, rem2, some i) ∧
        i < es.length ∧ (∀ e ∈ es, 0 ≤ e.response_size) ∧
        sumSizes es + rem2 = MAX_CACHE_SIZE := by
  intro fuel
  induction fuel with
  | zero =>
    intro entries rem hne hlen hpos hsum
    obtain ⟨i, hidx, hilt⟩ := find_LRU_mem now sent entries hla hne
    have hlp := List.length_pos.mpr hne
    have hlen1 : entries.length = 1 := by omega
    obtain ⟨e, rfl⟩ : ∃ e, entries = [e] := by
      cases entries with
      | nil => simp at hlen1
      | cons a t =>
        cases t with
        | nil => exact ⟨a, rfl⟩
        | cons b t2 => simp [List.length_cons] at hlen1
    have hi0 : i = 0 := by omega
    subst hi0
    have hsum1 : sumSizes [e] = e.response_size := by simp [sumSizes]
    have hcond : ¬((entryAt [e] 0).response_size + rem < obj) := by
      show ¬(e.response_size + rem < obj)
      omega
    refine ⟨[e], rem, 0, ?_, hilt, hpos, hsum⟩
    simp only [evict_loop, hidx]
    rw [if_neg hcond]
  | succ f ih =>
    intro entries rem hne hlen hpos hsum
    obtain ⟨i, hidx, hilt⟩ := find_LRU_mem now sent entries hla hne
    have hmem : entryAt entries i ∈ entries := entryAt_mem entries i hilt
    by_cases hcond : (entryAt entries i).response_size + rem < obj
    · -- the loop deletes the candidate and recurses
      have hne2 : entries.eraseIdx i ≠ [] := by
        intro hnil
        have hle1 : entries.length ≤ 1 := eraseIdx_eq_nil_length entries i hnil
        have hlp := List.length_pos.mpr hne
        have hlen1 : entries.length = 1 := by omega
        obtain ⟨e, rfl⟩ : ∃ e, entries = [e] := by
          cases entries with
          | nil => simp at hlen1
          | cons a t =>
            cases t with
            | nil => exact ⟨a, rfl⟩
            | cons b t2 => simp [List.length_cons] at hlen1
        have hi0 : i = 0 := by omega
        subst hi0
        have hsum1 : sumSizes [e] = e.response_size := by simp [sumSizes]
        have : (entryAt [e] 0).response_size = e.response_size := rfl
        omega
      have hlene := length_eraseIdx_add_one entries i hilt
      have hsume := sumSizes_eraseIdx entries i hilt
      obtain ⟨es, rem2, k, hres, hklt, hkpos, hksum⟩ :=
        ih (entries.eraseIdx i) (rem + (entryAt entries i).response_size) hne2
          (by omega)
          (fun e he => hpos e (mem_of_mem_eraseIdx entries i e he))
          (by omega)
      refine ⟨es, rem2, k, ?_, hklt, hkpos, hksum⟩
      simp only [evict_loop, hidx]
      rw [if_pos hcond]
      exact hres
    · -- the loop exits with the current candidate
      refine ⟨entries, rem, i, ?_, hilt, hpos, hsum⟩
      simp only [evict_loop, hidx]
      rw [if_neg hcond]

/-- Claim C6: the accounting invariant sum(entry.response_size over live
entries) + remaining_cache_size = MAX_CACHE_SIZE holds initially and is
preserved by every insert (write_to_cache), including the eviction path that
deletes LRU entries and overwrites the final victim in place, for every
obj_size with 0 ≤ obj_size ≤ MAX_OBJECT_SIZE.  The hypotheses record the
standing facts of a running proxy: entry sizes are nonnegative and the
sentinel's last_access (0 from init_cache, never updated afterwards) is below
the current time. -/
theorem write_to_cache_preserves_accounting
    (st : CacheSt) (now obj_size : Int) (c_url resp : List Nat)
    (hla : st.sent.last_access < now)
    (h0 : 0 ≤ obj_size) (hcap : obj_size ≤ MAX_OBJECT_SIZE)
    (hpos : ∀ e ∈ st.entries, 0 ≤ e.response_size)
    (hsum : sumSizes st.entries + st.remaining = MAX_CACHE_SIZE) :
    sumSizes [] + MAX_CACHE_SIZE = MAX_CACHE_SIZE ∧
    ∃ st2, write_to_cache now st c_url obj_size resp = some st2 ∧
      sumSizes st2.entries + st2.remaining = MAX_CACHE_SIZE ∧
      ∀ e ∈ st2.entries, 0 ≤ e.response_size := by
  refine ⟨by simp [sumSizes], ?_⟩
  by_cases hrem : obj_size ≤ st.remaining
  · -- enough space: push a fresh entry at the front
    refine ⟨_, by simp only [write_to_cache]; rw [if_pos hrem], ?_, ?_⟩
    · show sumSizes (_ :: st.entries) + (st.remaining - obj_size) = MAX_CACHE_SIZE
      rw [sumSizes_cons]
      show obj_size + sumSizes st.entries + (st.remaining - obj_size) = MAX_CACHE_SIZE
      omega
    · intro e he
      rcases List.mem_cons.mp he with rfl | he2
      · exact h0
      · exact hpos e he2
  · -- eviction path
    have hne : st.entries ≠ [] := by
      intro hnil
      rw [hnil] at hsum
      have : sumSizes [] = 0 := rfl
      have hlt : MAX_OBJECT_SIZE ≤ MAX_CACHE_SIZE := by decide
      omega
    obtain ⟨es, rem2, i, hres, hilt, hpos2, hsum2⟩ :=
      evict_loop_ok st.sent now obj_size hla (le_trans hcap (by decide))
        st.entries.length st.entries st.remaining hne (by omega) hpos hsum
    have hset := sumSizes_set es i
      { url := c_url, response := resp.take obj_size.toNat,
        last_access := now, response_size := obj_size } hilt
    refine ⟨_, by simp only [write_to_cache]; rw [if_neg hrem, hres], ?_, ?_⟩
    · show sumSizes (es.set i _) +
        (rem2 + ((entryAt es i).response_size - obj_size)) = MAX_CACHE_SIZE
      dsimp only at hset
      omega
    · dsimp only
      intro e he
      rcases List.mem_or_eq_of_mem_set he with he2 | rfl
      · exact hpos2 e he2
      · exact h0

/-- Claim C6 witness: the invariant is preserved on a concrete full cache
(sizes 1000 and 1047000, 1000 bytes remaining) receiving a 102400-byte
object, which exercises the eviction path. -/
theorem write_to_cache_preserves_accounting_witness :
    sumSizes [] + MAX_CACHE_SIZE = MAX_CACHE_SIZE ∧
    ∃ st2, write_to_cache 30 wtcSt [99] 102400 [] = some st2 ∧
      sumSizes st2.entries + st2.remaining = MAX_CACHE_SIZE ∧
      ∀ e ∈ st2.entries, 0 ≤ e.response_size :=
  write_to_cache_preserves_accounting wtcSt 30 102400 [99] []
    (by decide) (by decide) (by decide) (by decide) (by decide)

end ProxyCache

namespace ProxyCache

/-- Claim C3 (code bug): on the cache lruEntries (live last_access values 10
then 5, sentinel 0, now 20), find_LRU returns the first live entry (index 0,
last_access 10) although the entry with the smallest last_access is index 1
(last_access 5): the loop compares temp's last_access instead of the scanned
entry's, so temp never moves past the first entry. -/
theorem find_LRU_returns_first_not_min :
    find_LRU 20 init_cache lruEntries = some 0 ∧
    (entryAt lruEntries 1).last_access < (entryAt lruEntries 0).last_access := by
  decide

/-- Claim C4 (code bug): looking up url [98] at time 50 in searchEntries hits
the second entry, but the first (non-matching) entry's last_access is also
rewritten from 1 to 50, contradicting the claim that every other entry is
left unchanged. -/
theorem search_cache_touches_nonmatching_timestamps :
    (search_cache 50 searchEntries [98]).hit = some 1 ∧
    (search_cache 50 searchEntries [98]).entries =
      [{ url := [97], response := [], last_access := 50, response_size := 0 },
       { url := [98], response := [], last_access := 50, response_size := 0 }] ∧
    entryAt (search_cache 50 searchEntries [98]).entries 0 ≠ entryAt searchEntries 0 := by
  decide

/-- Claim C5 (code bug): every search_cache call Mallocs one Cache struct
(line 432) whose pointer is immediately overwritten and never freed — one
allocation, zero frees — contradicting the claim that lookup never allocates;
the miss path still returns ∅. -/
theorem search_cache_allocates_and_leaks :
    (∀ (now : Int) (entries : List CEntry) (curl : List Nat),
      (search_cache now entries curl).mallocs = 1 ∧
      (search_cache now entries curl).frees = 0) ∧
    (search_cache 50 [] [97]).hit = none := by
  exact ⟨fun now entries curl => ⟨rfl, rfl⟩, rfl⟩

/-- Claim C9 (code bug): a response of exactly MAX_OBJECT_SIZE = 102400 bytes
(chunks c9chunks, all within one MAXLINE read) passes the caching test
(response_buf_left = 0 ≥ 0) but the final 4096-byte chunk fails the strict
response_buf_left - n > 0 copy guard, so the cache receives a truncated
98304-byte object instead of the whole response. -/
theorem stream_caches_truncated_at_exact_cap :
    handle_response c9chunks = some 98304 ∧
    c9chunks.sum = 102400 ∧
    (∀ n ∈ c9chunks, 1 ≤ n ∧ n ≤ MAXLINE) ∧
    (98304 : Int) ≠ 102400 := by
  decide

end ProxyCache

namespace MallocImpl

/-- Claim C1 counterexample: for a minimum-size block (old_block_size 24, old
payload 16) and request size 20, mm_realloc copies min(size, old_block_size)
= 20 bytes starting at ptr, reading 4 bytes beyond the 16-byte old payload —
the claim's assertion that the copy reads no more than the old payload is
false. -/
theorem mm_realloc_copy_overreads_payload :
    mm_realloc_copy_len 24 20 = 20 ∧
    (mm_realloc_effect 100 24 (List.range 24) 20 200).copied.length = 20 ∧
    ¬((mm_realloc_effect 100 24 (List.range 24) 20 200).copied.length ≤ 24 - DSIZE) := by
  decide

/-- Claim C1 as amended: in the genuine-reallocation branch (ptr ≠ 0, size ≠
0, inner malloc succeeded), mm_realloc copies min(old_block_size, size) =
min(old_payload + 8, size) bytes from ptr — so the first min(old_payload,
size) bytes of the new payload equal the corresponding old bytes, but when
old_payload < size the copy reads up to 8 bytes past the old payload — and
then frees the old block and returns the new pointer. -/
theorem mm_realloc_copies_min_blocksize
    (ptr old_block_size size newptr : Nat) (block_bytes : List Nat)
    (hbs : MIN_SIZE ≤ old_block_size) (hptr : ptr ≠ 0) (hsz : size ≠ 0)
    (hnp : newptr ≠ 0) :
    (mm_realloc_effect ptr old_block_size block_bytes size newptr).copied =
      block_bytes.take (min ((old_block_size - DSIZE) + DSIZE) size) ∧
    (mm_realloc_effect ptr old_block_size block_bytes size newptr).copied.take
        (min (old_block_size - DSIZE) size) =
      block_bytes.take (min (old_block_size - DSIZE) size) ∧
    (mm_realloc_effect ptr old_block_size block_bytes size newptr).freed = some ptr ∧
    (mm_realloc_effect ptr old_block_size block_bytes size newptr).returned
      = some newptr := by
  have hbs24 : 24 ≤ old_block_size := hbs
  have hbs8 : (old_block_size - DSIZE) + DSIZE = old_block_size := by
    show (old_block_size - 8) + 8 = old_block_size
    omega
  have hlen : mm_realloc_copy_len old_block_size size = min old_block_size size := by
    unfold mm_realloc_copy_len
    split <;> omega
  simp only [mm_realloc_effect, if_neg hsz, if_neg hptr, if_neg hnp]
  refine ⟨?_, ?_, by trivial, by trivial⟩
  · rw [hlen, hbs8]
  · rw [hlen, List.take_take]
    congr 1
    show min (min (old_block_size - 8) size) (min old_block_size size)
        = min (old_block_size - 8) size
    omega

/-- Claim C1 witness: the amended statement at the concrete minimum-size
block (old_block_size 24) with request 20. -/
theorem mm_realloc_copies_min_blocksize_witness :
    (mm_realloc_effect 100 24 (List.range 24) 20 200).copied =
      (List.range 24).take (min ((24 - DSIZE) + DSIZE) 20) ∧
    (mm_realloc_effect 100 24 (List.range 24) 20 200).copied.take (min (24 - DSIZE) 20) =
      (List.range 24).take (min (24 - DSIZE) 20) ∧
    (mm_realloc_effect 100 24 (List.range 24) 20 200).freed = some 100 ∧
    (mm_realloc_effect 100 24 (List.range 24) 20 200).returned = some 200 :=
  mm_realloc_copies_min_blocksize 100 24 20 200 (List.range 24)
    (by decide) (by decide) (by decide) (by decide)

/-- Claim C2 counterexample: at size 17 the code computes asize = 16 *
((17 + 31) / 16) = 48, not the claimed max(24, round_up(17 + 8, 16)) = 32. -/
theorem mm_malloc_asize_not_spec_formula :
    asize_of 17 = 48 ∧ max MIN_SIZE (roundUp (17 + 8) 16) = 32 ∧ (48 : Nat) ≠ 32 := by
  decide

/-- Claim C2 as amended: the adjusted block size is 24 for size ≤ 16 and
round_up(size + 16, 16) — payload plus 16 bytes of overhead rounded to a
16-byte multiple — for size > 16; it is always at least MIN_SIZE = 24; and
alloc(0) returns ∅ (after the lazy init check, mm_malloc returns NULL on
size = 0). -/
theorem mm_malloc_asize_formula :
    (∀ size : Nat,
      asize_of size = (if size ≤ 16 then 24 else roundUp (size + 16) 16) ∧
      MIN_SIZE ≤ asize_of size) ∧
    (∀ (st : MMState) (fuel : Nat), (mm_malloc st fuel 0).2 = none) := by
  constructor
  · intro size
    by_cases h : size ≤ 16
    · constructor
      · simp [asize_of, DSIZE, h]
      · simp [asize_of, DSIZE, h, MIN_SIZE]
    · constructor
      · rw [if_neg h]
        simp only [asize_of, roundUp, DSIZE]
        rw [if_neg (by omega : ¬size ≤ 2 * 8)]
        omega
      · show 24 ≤ asize_of size
        simp only [asize_of, DSIZE]
        rw [if_neg (by omega : ¬size ≤ 2 * 8)]
        have h3 : 3 ≤ (size + 2 * 8 + (2 * 8 - 1)) / (2 * 8) := by omega
        calc 24 ≤ (2 * 8) * 3 := by norm_num
          _ ≤ (2 * 8) * ((size + 2 * 8 + (2 * 8 - 1)) / (2 * 8)) :=
            Nat.mul_le_mul_left _ h3
  · intro st fuel
    simp [mm_malloc, mm_malloc_core]

end MallocImpl

namespace MallocImpl

/-- One passing iteration of the heap-walk loop. -/
theorem checkHeapLoop_step (st : MMState) (f b j : Nat) (hb : b ≠ 0)
    (hsz : GET_SIZE st (HDRP b) % 8 = 0) :
    checkHeapLoop st (f + 1) b j =
      checkHeapLoop st f (NEXT_BLKP st b)
        (if GET_ALLOC st (HDRP b) = FREE then j + 1 else j) := by
  simp only [checkHeapLoop]
  rw [if_neg hb, if_neg (not_not_intro hsz)]

/-- A block whose header stores size 0 is a fixed point of NEXT_BLKP, so the
heap walk never leaves it and never reaches the null pointer: the loop does
not finish for any fuel. -/
theorem checkHeapLoop_stuck (st : MMState) (b : Nat) (hb : b ≠ 0)
    (hsz : GET_SIZE st (HDRP b) = 0) :
    ∀ (fuel j : Nat), checkHeapLoop st fuel b j = none := by
  have hnext : NEXT_BLKP st b = b := by
    show b + GET_SIZE st (b - WSIZE) = b
    have : GET_SIZE st (b - WSIZE) = 0 := hsz
    omega
  intro fuel
  induction fuel with
  | zero => intro j; rfl
  | succ f ih =>
    intro j
    rw [checkHeapLoop_step st f b j hb (by rw [hsz])]
    rw [hnext]
    exact ih _

/-- The free-list loop of the post-init heap finds the one free block at 16
and terminates with count 1 (two loop-condition evaluations). -/
theorem checkFreeLoop_stInit (f : Nat) :
    checkFreeLoop stInit (f + 2) 16 0 = some (true, 1) := by
  simp only [checkFreeLoop]
  rw [if_neg (by decide : ¬(16 = 0))]
  rw [if_neg (not_not_intro (by decide :
    mem_heap_lo stInit < 16 ∧ 16 < mem_heap_hi stInit))]
  rw [if_neg (not_not_intro (by decide : GET_SIZE stInit (HDRP 16) % ALIGN = 0))]
  rw [if_neg (by decide : ¬(GET_NEXT_FREE stInit 16 ≠ 0 ∧
    ¬(GET_PREV_FREE stInit 16 = 0 ∨
      GET_PREV_FREE stInit (GET_NEXT_FREE stInit 16) = 16)))]
  rw [if_neg (by decide : ¬(NEXT_BLKP stInit 16 ≠ 0 ∧
    ¬(GET_ALLOC stInit (HDRP 16) ≠ GET_ALLOC stInit (HDRP (NEXT_BLKP stInit 16)))))]
  rw [if_neg (not_not_intro (by decide : MIN_SIZE ≤ GET_SIZE stInit (HDRP 16)))]
  rw [if_neg (not_not_intro (by decide :
    GET_SIZE stInit (HDRP 16) = GET_SIZE stInit (FTRP stInit 16)))]
  rw [if_neg (not_not_intro (by decide :
    GET_ALLOC stInit (HDRP 16) = GET_ALLOC stInit (FTRP stInit 16)))]
  rw [show GET_NEXT_FREE stInit 16 = 0 from by decide]
  simp [checkFreeLoop]

/-- Claim C8 (code bug): on the heap produced by mm_init alone, mm_checkheap
never returns for any step budget: the heap walk reaches the size-0 epilogue
(block pointer 2064), where NEXT_BLKP yields the same pointer, and the guard
block != NULL never fails, so the walk never terminates — checkheap cannot
return 1 after any operation. -/
theorem mm_checkheap_never_returns : ∀ fuel : Nat, mm_checkheap stInit fuel = none := by
  intro fuel
  match fuel with
  | 0 => decide
  | 1 => decide
  | (f + 2) =>
    have h1 : checkFreeLoop stInit (f + 2) stInit.free_list_root 0 = some (true, 1) := by
      rw [show stInit.free_list_root = 16 from by decide]
      exact checkFreeLoop_stInit f
    have h2 : checkHeapLoop stInit (f + 2) stInit.heap_listp 0 = none := by
      rw [show stInit.heap_listp = 8 from by decide]
      rw [checkHeapLoop_step stInit (f + 1) 8 0 (by decide) (by decide)]
      rw [show NEXT_BLKP stInit 8 = 16 from by decide]
      rw [if_neg (by decide : ¬(GET_ALLOC stInit (HDRP 8) = FREE))]
      match f with
      | 0 => decide
      | (g + 1) =>
        rw [checkHeapLoop_step stInit (g + 1) 16 0 (by decide) (by decide)]
        rw [show NEXT_BLKP stInit 16 = 2064 from by decide]
        rw [if_pos (by decide : GET_ALLOC stInit (HDRP 16) = FREE)]
        exact checkHeapLoop_stuck stInit 2064 (by decide) (by decide) (g + 1) 1
    simp only [mm_checkheap, h1, h2]

end MallocImpl

namespace MallocImpl

/-- PUT leaves heap_listp unchanged. -/
theorem PUT_heap_listp (st : MMState) (p v : Nat) : (PUT st p v).heap_listp = st.heap_listp := rfl

/-- add_to_freelist leaves heap_listp unchanged. -/
theorem add_to_freelist_heap_listp (st : MMState) (bp : Nat) :
    (add_to_freelist st bp).heap_listp = st.heap_listp := by
  unfold add_to_freelist
  split <;> rfl

/-- remove_from_freelist leaves heap_listp unchanged. -/
theorem remove_from_freelist_heap_listp (st : MMState) (bp : Nat) :
    (remove_from_freelist st bp).heap_listp = st.heap_listp := by
  unfold remove_from_freelist
  split
  · rfl
  · split
    · rfl
    · split <;> rfl

/-- coalesce leaves heap_listp unchanged. -/
theorem coalesce_heap_listp (st : MMState) (bp : Nat) :
    (coalesce st bp).1.heap_listp = st.heap_listp := by
  simp only [coalesce]
  split
  · exact add_to_freelist_heap_listp _ _
  · split
    · rw [add_to_freelist_heap_listp, PUT_heap_listp, PUT_heap_listp,
        remove_from_freelist_heap_listp]
    · split
      · rw [add_to_freelist_heap_listp, PUT_heap_listp, PUT_heap_listp,
          remove_from_freelist_heap_listp]
      · rw [add_to_freelist_heap_listp, PUT_heap_listp, PUT_heap_listp,
          remove_from_freelist_heap_listp, remove_from_freelist_heap_listp]

/-- extend_heap leaves heap_listp unchanged. -/
theorem extend_heap_heap_listp (st : MMState) (w : Nat) :
    (extend_heap st w).1.heap_listp = st.heap_listp := by
  unfold extend_heap
  rw [coalesce_heap_listp, PUT_heap_listp, PUT_heap_listp, PUT_heap_listp]
  rfl

/-- After mm_init, heap_listp points at the prologue payload: the sbrk base
plus two words, which is never the null pointer. -/
theorem mm_init_heap_listp (st : MMState) : (mm_init st).1.heap_listp = st.brk + 8 := by
  unfold mm_init mem_sbrk
  rw [extend_heap_heap_listp]
  rfl

/-- Claim C10 counterexample: on the pre-init state st10, mm_free 16 reads
the stale header word 48 at address 12 before running mm_init, while the
init-first order prescribed by the claim would read the 2048 free-block
header mm_init installs there; the resulting heaps differ at address 12, so
free does act on the uninitialized heap. -/
theorem mm_free_reads_header_before_init :
    st10.heap_listp = 0 ∧
    aget ((mm_free st10 16).words) 12 = 48 ∧
    aget ((mm_free (mm_init st10).1 16).words) 12 = 2048 ∧
    mm_free st10 16 ≠ mm_free (mm_init st10).1 16 := by
  decide

/-- Claim C10 as amended: with the heap uninitialized (heap_listp = 0),
mm_malloc first runs the full initialization and then performs the
allocation — it behaves exactly as if mm_init had already run — while
mm_free first reads the block's header size from the pre-init heap, then
runs the full initialization, and then marks the block free and coalesces
using that previously read size. -/
theorem lazy_init_order (st : MMState) (fuel size bp : Nat)
    (h : st.heap_listp = 0) (hbp : bp ≠ 0) :
    mm_malloc st fuel size = mm_malloc (mm_init st).1 fuel size ∧
    mm_free st bp = mm_free_core (mm_init st).1 bp (GET_SIZE st (HDRP bp)) := by
  have hni : ¬((mm_init st).1.heap_listp = 0) := by rw [mm_init_heap_listp]; omega
  constructor
  · simp only [mm_malloc]
    rw [if_pos h, if_neg hni]
  · simp only [mm_free]
    rw [if_neg hbp, if_pos h]

/-- Claim C10 witness: the amended statement at the concrete pre-init state
st10 with an alloc of 5 bytes and a free of block pointer 16. -/
theorem lazy_init_order_witness :
    mm_malloc st10 0 5 = mm_malloc (mm_init st10).1 0 5 ∧
    mm_free st10 16 = mm_free_core (mm_init st10).1 16 (GET_SIZE st10 (HDRP 16)) :=
  lazy_init_order st10 0 5 16 (by decide) (by decide)

end MallocImpl

namespace MallocImpl

/-! Step lemmas for the find_fit loop. -/

/-- The loop stops when the guard fails. -/
theorem find_fit_go_stop (asize b : Nat) (t : List Nat) (pos count scount : Nat)
    (sc : Bool) (bp : Option (Nat × Nat)) (h : ¬(count < FITS ∧ scount < FURTHESTDOWN)) :
    find_fit_go asize (b :: t) pos count scount sc bp = bp := by
  simp only [find_fit_go]
  rw [if_neg h]

/-- First qualifying block: count becomes 1, start_counting is set, the block
is recorded. -/
theorem find_fit_go_step_first (asize b : Nat) (t : List Nat) (pos scount : Nat)
    (hg : 0 < FITS ∧ scount < FURTHESTDOWN) (hq : asize ≤ b) :
    find_fit_go asize (b :: t) pos 0 scount false none
      = find_fit_go asize t (pos + 1) 1 scount true (some (pos, b)) := by
  simp only [find_fit_go]
  rw [if_pos hg, if_pos hq]
  simp [lt_irrefl]

/-- Non-qualifying block before the first candidate: nothing changes. -/
theorem find_fit_go_step_skip0 (asize b : Nat) (t : List Nat) (pos scount : Nat)
    (hg : 0 < FITS ∧ scount < FURTHESTDOWN) (hq : ¬asize ≤ b) :
    find_fit_go asize (b :: t) pos 0 scount false none
      = find_fit_go asize t (pos + 1) 0 scount false none := by
  simp only [find_fit_go]
  rw [if_pos hg, if_neg hq]
  simp

/-- Qualifying block after the first candidate: count and scount advance and
the best candidate is updated by the strict size comparison. -/
theorem find_fit_go_step_qual (asize b : Nat) (t : List Nat) (pos count scount : Nat)
    (pr : Nat × Nat) (hg : count < FITS ∧ scount < FURTHESTDOWN) (hq : asize ≤ b)
    (hc : 1 ≤ count) :
    find_fit_go asize (b :: t) pos count scount true (some pr)
      = find_fit_go asize t (pos + 1) (count + 1) (scount + 1) true
          (some (if b < pr.2 then (pos, b) else pr)) := by
  simp only [find_fit_go]
  rw [if_pos hg, if_pos hq]
  rw [if_neg (by omega : ¬(count + 1 = 1)), if_neg (by omega : ¬(count + 1 = 1))]
  simp only [if_true]
  rw [apply_ite some]

/-- Non-qualifying block after the first candidate: only scount advances. -/
theorem find_fit_go_step_nonqual (asize b : Nat) (t : List Nat) (pos count scount : Nat)
    (bp : Option (Nat × Nat)) (hg : count < FITS ∧ scount < FURTHESTDOWN)
    (hq : ¬asize ≤ b) :
    find_fit_go asize (b :: t) pos count scount true bp
      = find_fit_go asize t (pos + 1) count (scount + 1) true bp := by
  simp only [find_fit_go]
  rw [if_pos hg, if_neg hq]
  simp

end MallocImpl

namespace MallocImpl

/-! Arithmetic of the examined-prefix length. -/

theorem qualPositions_cons_pos (asize b : Nat) (t : List Nat) (h : asize ≤ b) :
    qualPositions asize (b :: t) = 0 :: (qualPositions asize t).map (fun i => i + 1) := by
  simp [qualPositions, h]

theorem qualPositions_cons_neg (asize b : Nat) (t : List Nat) (h : ¬asize ≤ b) :
    qualPositions asize (b :: t) = (qualPositions asize t).map (fun i => i + 1) := by
  simp [qualPositions, h]

theorem stopB_cons_pos (asize b : Nat) (t : List Nat) (cb lb : Nat)
    (h : asize ≤ b) (hcb : 1 ≤ cb) (hlb : 1 ≤ lb) :
    stopB asize (b :: t) cb lb = 1 + stopB asize t (cb - 1) (lb - 1) := by
  obtain ⟨k, rfl⟩ : ∃ k, cb = k + 1 := ⟨cb - 1, by omega⟩
  simp only [stopB, qualPositions_cons_pos asize b t h, Nat.add_sub_cancel]
  cases k with
  | zero =>
    rw [if_neg (by omega : ¬(0 + 1 = 0)), if_pos rfl]
    simp only [List.get?_cons_zero]
    omega
  | succ k2 =>
    rw [if_neg (by omega : ¬(k2 + 1 + 1 = 0)), if_neg (by omega : ¬(k2 + 1 = 0))]
    simp only [List.get?_cons_succ, List.get?_map, Nat.add_sub_cancel]
    cases hq : (qualPositions asize t).get? k2 with
    | none => simp only [hq, Option.map_none', List.length_cons]; omega
    | some v => simp only [hq, Option.map_some']; omega

theorem stopB_cons_neg (asize b : Nat) (t : List Nat) (cb lb : Nat)
    (h : ¬asize ≤ b) (hcb : 1 ≤ cb) (hlb : 1 ≤ lb) :
    stopB asize (b :: t) cb lb = 1 + stopB asize t cb (lb - 1) := by
  obtain ⟨k, rfl⟩ : ∃ k, cb = k + 1 := ⟨cb - 1, by omega⟩
  simp only [stopB, qualPositions_cons_neg asize b t h, Nat.add_sub_cancel]
  rw [if_neg (by omega : ¬(k + 1 = 0)), if_neg (by omega : ¬(k + 1 = 0))]
  simp only [List.get?_map, Nat.add_sub_cancel]
  cases hq : (qualPositions asize t).get? k with
  | none => simp only [hq, Option.map_none', List.length_cons]; omega
  | some v => simp only [hq, Option.map_some']; omega

theorem specStop_cons_pos (asize b : Nat) (t : List Nat) (h : asize ≤ b) :
    specStop asize (b :: t) = 1 + stopB asize t (FITS - 1) FURTHESTDOWN := by
  simp only [specStop, stopB, qualPositions_cons_pos asize b t h, FITS, FURTHESTDOWN]
  rw [if_neg (by omega : ¬(8 - 1 = 0))]
  simp only [show (8 : Nat) - 1 = 6 + 1 from rfl, List.get?_cons_succ, List.get?_map]
  cases hq : (qualPositions asize t).get? 6 with
  | none => simp only [hq, Option.map_none', List.length_cons]; omega
  | some v => simp only [hq, Option.map_some']; omega

theorem specStop_cons_neg (asize b : Nat) (t : List Nat) (h : ¬asize ≤ b) :
    specStop asize (b :: t) = 1 + specStop asize t := by
  simp only [specStop, qualPositions_cons_neg asize b t h]
  cases hqp : qualPositions asize t with
  | nil => simp [List.length_cons]; omega
  | cons i0 rq =>
    simp only [List.map_cons, List.length_cons, FITS, FURTHESTDOWN]
    simp only [show (8 : Nat) - 1 = 6 + 1 from rfl, List.get?_cons_succ, List.get?_map]
    cases hq : rq.get? 6 with
    | none => simp only [hq, Option.map_none', List.length_cons]; omega
    | some v => simp only [hq, Option.map_some']; omega

end MallocImpl

namespace MallocImpl

/-- After the first candidate (count ≥ 1, start_counting set, current best
pr), the rest of the loop computes the minimum, with first-encountered tie
preference, over the qualifying blocks of the examined remainder — the
remainder prefix whose length is governed by the remaining candidate and
lookahead budgets. -/
theorem find_fit_go_regimeB (asize : Nat) : ∀ (l : List Nat) (pos count scount : Nat)
    (pr : Nat × Nat), 1 ≤ count →
    find_fit_go asize l pos count scount true (some pr) =
      pickBest (some pr)
        (((enumF pos l).take (stopB asize l (FITS - count) (FURTHESTDOWN - scount))).filter
          (fun p => asize ≤ p.2)) := by
  intro l
  induction l with
  | nil => intro pos count scount pr hc; simp [find_fit_go, enumF, pickBest]
  | cons b t ih =>
    intro pos count scount pr hc
    by_cases hg : count < FITS ∧ scount < FURTHESTDOWN
    · have hcb : 1 ≤ FITS - count := by omega
      have hlb : 1 ≤ FURTHESTDOWN - scount := by omega
      by_cases hq : asize ≤ b
      · rw [find_fit_go_step_qual asize b t pos count scount pr hg hq hc]
        rw [ih (pos + 1) (count + 1) (scount + 1) _ (by omega)]
        rw [stopB_cons_pos asize b t _ _ hq hcb hlb]
        rw [show enumF pos (b :: t) = (pos, b) :: enumF (pos + 1) t from rfl]
        rw [show (1 : Nat) + stopB asize t (FITS - count - 1) (FURTHESTDOWN - scount - 1)
            = stopB asize t (FITS - count - 1) (FURTHESTDOWN - scount - 1) + 1 from by omega]
        rw [List.take_succ_cons, List.filter_cons,
            if_pos (show decide (asize ≤ b) = true from by simpa using hq)]
        rw [show FITS - (count + 1) = FITS - count - 1 from by omega,
            show FURTHESTDOWN - (scount + 1) = FURTHESTDOWN - scount - 1 from by omega]
        simp only [pickBest]
        rw [apply_ite some]
      · rw [find_fit_go_step_nonqual asize b t pos count scount (some pr) hg hq]
        rw [ih (pos + 1) count (scount + 1) pr hc]
        rw [stopB_cons_neg asize b t _ _ hq hcb hlb]
        rw [show enumF pos (b :: t) = (pos, b) :: enumF (pos + 1) t from rfl]
        rw [show (1 : Nat) + stopB asize t (FITS - count) (FURTHESTDOWN - scount - 1)
            = stopB asize t (FITS - count) (FURTHESTDOWN - scount - 1) + 1 from by omega]
        rw [List.take_succ_cons, List.filter_cons,
            if_neg (show ¬(decide (asize ≤ b) = true) from by simpa using hq)]
        rw [show FURTHESTDOWN - (scount + 1) = FURTHESTDOWN - scount - 1 from by omega]
    · rw [find_fit_go_stop asize b t pos count scount true (some pr) hg]
      have h0 : stopB asize (b :: t) (FITS - count) (FURTHESTDOWN - scount) = 0 := by
        unfold stopB
        rcases Nat.lt_or_ge count FITS with hlt | hge
        · have hz : FURTHESTDOWN - scount = 0 := by omega
          rw [hz]
          simp
        · have hz : FITS - count = 0 := by omega
          rw [hz]
          simp
      rw [h0]
      rfl

/-- The find_fit loop from its initial state computes the declarative
bounded best-fit of the examined prefix. -/
theorem find_fit_go_main (asize : Nat) : ∀ (l : List Nat) (pos : Nat),
    find_fit_go asize l pos 0 0 false none =
      pickBest none
        (((enumF pos l).take (specStop asize l)).filter (fun p => asize ≤ p.2)) := by
  intro l
  induction l with
  | nil => intro pos; rfl
  | cons b t ih =>
    intro pos
    by_cases hq : asize ≤ b
    · rw [find_fit_go_step_first asize b t pos 0 (by decide) hq]
      rw [find_fit_go_regimeB asize t (pos + 1) 1 0 (pos, b) (by omega)]
      rw [specStop_cons_pos asize b t hq]
      rw [show enumF pos (b :: t) = (pos, b) :: enumF (pos + 1) t from rfl]
      rw [show (1 : Nat) + stopB asize t (FITS - 1) FURTHESTDOWN
          = stopB asize t (FITS - 1) FURTHESTDOWN + 1 from by omega]
      rw [List.take_succ_cons, List.filter_cons,
          if_pos (show decide (asize ≤ b) = true from by simpa using hq)]
      simp only [pickBest]
      norm_num
    · rw [find_fit_go_step_skip0 asize b t pos 0 (by decide) hq]
      rw [ih (pos + 1)]
      rw [specStop_cons_neg asize b t hq]
      rw [show enumF pos (b :: t) = (pos, b) :: enumF (pos + 1) t from rfl]
      rw [show (1 : Nat) + specStop asize t = specStop asize t + 1 from by omega]
      rw [List.take_succ_cons, List.filter_cons,
          if_neg (show ¬(decide (asize ≤ b) = true) from by simpa using hq)]

/-- Claim C7: find_fit scans the free list from its head and, after the
first block of size ≥ asize, continues for at most FURTHESTDOWN = 200
further inspected free blocks, stopping once FITS = 8 qualifying candidates
have been seen, whichever comes first; it returns the examined candidate of
smallest size with ties broken by first encountered, and ∅ when no block of
size ≥ asize was examined — that is, it equals the declarative bounded
best-fit find_fit_spec on every free list. -/
theorem find_fit_matches_bounded_best_fit (asize : Nat) (freelist : List Nat) :
    find_fit asize freelist = find_fit_spec asize freelist :=
  find_fit_go_main asize freelist 0

end MallocImpl
